import Mathlib

/-!
# Task Manager API (`main.go`)

A shallow embedding of the five gin handlers of `main.go` and of the SQLite
table `tasks` they operate on.

Modelling conventions

* Go `int` is 64 bits wide (`intSize`); `strconv.Atoi` and the conversion
  `int(id)` are modelled with that width.
* A handler receives a `Context` holding what it reads from `*gin.Context`:
  the value of the `:id` path parameter and the outcome of
  `c.ShouldBindJSON(&task)`.  What it hands to `c.JSON` is a `Response`
  (status code and Go value); `Obj.toJSON` is the encoding of that value.
* The storage handle `db` is `none` when the `tasks` table is missing
  (the `CREATE TABLE` of `initDB` failed), in which case every statement
  fails; otherwise it is a `Table`: the rows in rowid order together with
  the `sqlite_sequence` counter kept for an `AUTOINCREMENT` key.
* A column declared without `NOT NULL` may hold `NULL` (`none`); scanning
  `NULL` into a Go `string` or `time.Time` is a scan error.  The driver
  writes a `time.Time` as text and parses it back on reads; that encoding
  is taken to be lossless, so the column holds the `Time` itself.
-/

namespace TaskApi

/-! ## Data model -/

/-- Go `time.Time` as carried by JSON and by the `due_date` column: an instant and a zone offset. -/
structure Time where
  unixNano : Int
  offset : Int
  deriving DecidableEq, Repr

/-- The `Task` struct of `main.go`. -/
structure Task where
  ID : Int
  Title : String
  Description : String
  DueDate : Time
  Status : String
  deriving DecidableEq, Repr

/-- Width of Go `int` on the modelled platform. -/
def intSize : Nat := 64

/-- Smallest value of Go `int`. -/
def minInt : Int := -(2 ^ (intSize - 1))

/-- Largest value of Go `int`. -/
def maxInt : Int := 2 ^ (intSize - 1) - 1

/-- The conversion `int(id)` of an `int64`: two's complement wrap to `intSize` bits. -/
def toInt (x : Int) : Int :=
  (x + 2 ^ (intSize - 1)) % 2 ^ intSize - 2 ^ (intSize - 1)

/-! ## `strconv.Atoi` -/

/-- Value of an ASCII decimal digit, `none` for any other character. -/
def digitVal (ch : Char) : Option Nat :=
  if '0' ≤ ch ∧ ch ≤ '9' then some (ch.toNat - '0'.toNat) else none

/-- The digit loop of `Atoi`: `n = n*10 + int(ch)`, a syntax error on a non-digit. -/
def parseDigits : List Char → Nat → Option Nat
  | [], n => some n
  | ch :: rest, n =>
    match digitVal ch with
    | none => none
    | some d => parseDigits rest (n * 10 + d)

/-- Go `strconv.Atoi`: an optional sign, at least one decimal digit, and a value
that fits `int`; `none` stands for the returned error. -/
def Atoi (s : String) : Option Int :=
  match s.toList with
  | [] => none
  | ch :: rest =>
    let neg := ch = '-'
    let digits := if ch = '-' ∨ ch = '+' then rest else ch :: rest
    match digits with
    | [] => none
    | _ :: _ =>
      match parseDigits digits 0 with
      | none => none
      | some n =>
        let v : Int := if neg then -(n : Int) else (n : Int)
        if minInt ≤ v ∧ v ≤ maxInt then some v else none

/-! ## The `tasks` table -/

/-- One row of `tasks`; `title` is `NOT NULL`, the other data columns are nullable. -/
structure Row where
  id : Int
  title : String
  description : Option String
  due_date : Option Time
  status : Option String
  deriving DecidableEq, Repr

/-- The table `tasks`: its rows in rowid order and its `sqlite_sequence` counter. -/
structure Table where
  rows : List Row
  seq : Int
  deriving DecidableEq, Repr

/-- The storage handle: `none` when the table `tasks` does not exist. -/
abbrev DB := Option Table

/-- The table right after `CREATE TABLE` on a fresh database file. -/
def Table.empty : Table := ⟨[], 0⟩

/-- Largest rowid SQLite can assign. -/
def MAX_ROWID : Int := 2 ^ 63 - 1

/-- Rowid of the last entry of the table b-tree: the largest id, `none` when there is no row. -/
def lastRowid : List Row → Option Int
  | [] => none
  | r :: rs => some (rs.foldl (fun m x => max m x.id) r.id)

/-- Rowid chosen for a new row of an `AUTOINCREMENT` table: one more than the
larger of the last rowid and the sequence counter; `none` is `SQLITE_FULL`. -/
def newRowid (t : Table) : Option Int :=
  let fromTable : Option Int :=
    match lastRowid t.rows with
    | none => some 1
    | some m => if m ≥ MAX_ROWID then none else some (m + 1)
  match fromTable with
  | none => none
  | some v =>
    if t.seq = MAX_ROWID then none
    else some (if v < t.seq + 1 then t.seq + 1 else v)

/-- Statement `INSERT INTO tasks (title, description, due_date, status) VALUES (?, ?, ?, ?)`:
the result carries `LastInsertId`. -/
def Table.insert (t : Table) (title description : String) (due : Time) (status : String) :
    Option (Int × Table) :=
  match newRowid t with
  | none => none
  | some v => some (v, ⟨t.rows ++ [⟨v, title, some description, some due, some status⟩], v⟩)

/-- Statement `UPDATE tasks SET title = ?, description = ?, due_date = ?, status = ? WHERE id = ?`. -/
def Table.update (t : Table) (title description : String) (due : Time) (status : String)
    (id : Int) : Table :=
  ⟨t.rows.map (fun r =>
      if r.id = id then ⟨r.id, title, some description, some due, some status⟩ else r), t.seq⟩

/-- Statement `DELETE FROM tasks WHERE id = ?`. -/
def Table.delete (t : Table) (id : Int) : Table :=
  ⟨t.rows.filter (fun r => decide (r.id ≠ id)), t.seq⟩

/-- Query `SELECT ... FROM tasks WHERE id = ?` read through `QueryRow`: the first matching row. -/
def Table.queryRow (t : Table) (id : Int) : Option Row :=
  t.rows.find? (fun r => decide (r.id = id))

/-- Call `Scan(&task.ID, &task.Title, &task.Description, &task.DueDate, &task.Status)`:
fails on a `NULL` column. -/
def scan (r : Row) : Option Task :=
  match r.description, r.due_date, r.status with
  | some d, some t, some s => some ⟨r.id, r.title, d, t, s⟩
  | _, _, _ => none

/-! ## Go values handed to `c.JSON` -/

/-- A Go slice: `nil`, or a non-nil slice with its elements. -/
inductive Slice (α : Type) where
  | nil : Slice α
  | mk (elems : List α) : Slice α
  deriving DecidableEq, Repr

/-- Go `append(s, x)`. -/
def Slice.append {α : Type} : Slice α → α → Slice α
  | .nil, x => .mk [x]
  | .mk xs, x => .mk (xs ++ [x])

/-- Go `len(s)`. -/
def Slice.len {α : Type} : Slice α → Nat
  | .nil => 0
  | .mk xs => xs.length

/-- The values the handlers pass to `c.JSON`. -/
inductive Obj where
  | H (key value : String) : Obj
  | task (t : Task) : Obj
  | tasks (ts : Slice Task) : Obj
  deriving DecidableEq, Repr

/-- JSON documents the handlers can produce. -/
inductive Json where
  | null : Json
  | object (key value : String) : Json
  | task (t : Task) : Json
  | array (ts : List Task) : Json
  deriving DecidableEq, Repr

/-- Encoding done by `c.JSON` (`encoding/json`): a nil slice is written as `null`. -/
def Obj.toJSON : Obj → Json
  | .H k v => .object k v
  | .task t => .task t
  | .tasks .nil => .null
  | .tasks (.mk ts) => .array ts

/-- What a handler answers: status code and the value given to `c.JSON`. -/
structure Response where
  status : Nat
  obj : Obj
  deriving DecidableEq, Repr

/-- The JSON body of a response. -/
def Response.body (r : Response) : Json := r.obj.toJSON

/-- The parts of `*gin.Context` the handlers read. -/
structure Context where
  id : String
  json : Except String Task

/-- Call `c.Param("id")`. -/
def Context.Param (c : Context) : String := c.id

/-- Call `c.ShouldBindJSON(&task)`: the decoded task, or the error message. -/
def Context.ShouldBindJSON (c : Context) : Except String Task := c.json

/-! ## Handlers -/

/-- Function `initDB`: `CREATE TABLE IF NOT EXISTS tasks` on the database file. -/
def initDB (file : DB) : DB :=
  match file with
  | none => some Table.empty
  | some t => some t

/-- Handler `createTask` (`POST /tasks`). -/
def createTask (c : Context) (db : DB) : Response × DB :=
  match c.ShouldBindJSON with
  | .error err => (⟨400, .H "error" err⟩, db)
  | .ok task =>
    match db with
    | none => (⟨500, .H "error" "Failed to create task"⟩, db)
    | some t =>
      match t.insert task.Title task.Description task.DueDate task.Status with
      | none => (⟨500, .H "error" "Failed to create task"⟩, db)
      | some (id, t') => (⟨201, .task { task with ID := toInt id }⟩, some t')

/-- Handler `getTask` (`GET /tasks/:id`). -/
def getTask (c : Context) (db : DB) : Response × DB :=
  match Atoi c.Param with
  | none => (⟨400, .H "error" "Invalid task ID"⟩, db)
  | some id =>
    match (db.bind (fun t => t.queryRow id)).bind scan with
    | none => (⟨404, .H "error" "Task not found"⟩, db)
    | some task => (⟨200, .task task⟩, db)

/-- Handler `updateTask` (`PUT /tasks/:id`). -/
def updateTask (c : Context) (db : DB) : Response × DB :=
  match Atoi c.Param with
  | none => (⟨400, .H "error" "Invalid task ID"⟩, db)
  | some id =>
    match c.ShouldBindJSON with
    | .error err => (⟨400, .H "error" err⟩, db)
    | .ok task =>
      match db with
      | none => (⟨500, .H "error" "Failed to update task"⟩, db)
      | some t =>
        (⟨200, .task { task with ID := id }⟩,
          some (t.update task.Title task.Description task.DueDate task.Status id))

/-- Handler `deleteTask` (`DELETE /tasks/:id`). -/
def deleteTask (c : Context) (db : DB) : Response × DB :=
  match Atoi c.Param with
  | none => (⟨400, .H "error" "Invalid task ID"⟩, db)
  | some id =>
    match db with
    | none => (⟨500, .H "error" "Failed to delete task"⟩, db)
    | some t => (⟨200, .H "message" "Task deleted successfully"⟩, some (t.delete id))

/-- The `for rows.Next()` loop of `listTasks`: scan and append each row, stop at a scan error. -/
def listLoop : List Row → Slice Task → Option (Slice Task)
  | [], tasks => some tasks
  | r :: rs, tasks =>
    match scan r with
    | none => none
    | some task => listLoop rs (tasks.append task)

/-- Handler `listTasks` (`GET /tasks`); `tasks` starts as the nil slice. -/
def listTasks (_c : Context) (db : DB) : Response × DB :=
  match db with
  | none => (⟨500, .H "error" "Failed to list tasks"⟩, db)
  | some t =>
    match listLoop t.rows Slice.nil with
    | none => (⟨500, .H "error" "Failed to list tasks"⟩, db)
    | some tasks => (⟨200, .tasks tasks⟩, db)

/-! ## Router and request sequences -/

/-- The routes registered in `main` on `/tasks`. -/
inductive Route where
  | POST_tasks
  | GET_task
  | PUT_task
  | DELETE_task
  | GET_tasks
  deriving DecidableEq, Repr

/-- A request: the matched route and its context. -/
structure Request where
  route : Route
  ctx : Context

/-- Dispatch of a request to its handler, as registered in `main`. -/
def serve (rq : Request) (db : DB) : Response × DB :=
  match rq.route with
  | .POST_tasks => createTask rq.ctx db
  | .GET_task => getTask rq.ctx db
  | .PUT_task => updateTask rq.ctx db
  | .DELETE_task => deleteTask rq.ctx db
  | .GET_tasks => listTasks rq.ctx db

/-- Serve a sequence of requests one after the other: the responses and the final storage. -/
def run : DB → List Request → List (Request × Response) × DB
  | db, [] => ([], db)
  | db, rq :: rest =>
    let step := serve rq db
    let tail := run step.2 rest
    ((rq, step.1) :: tail.1, tail.2)

/-- The id a create request was answered with, when it was answered 201. -/
def createdId (x : Request × Response) : Option Int :=
  match x.1.route, x.2.obj with
  | .POST_tasks, .task t => if x.2.status = 201 then some t.ID else none
  | _, _ => none

/-- Ids returned by the successful creates of a trace, in order. -/
def createdIds (trace : List (Request × Response)) : List Int :=
  trace.filterMap createdId

/-- Storage states reachable from the empty table by serving requests. -/
def Reachable (t : Table) : Prop :=
  ∃ reqs : List Request, (run (some Table.empty) reqs).2 = some t

/-! ## Concrete inputs -/

/-- The task of the scenario `Buy milk`, with a chosen status and no id. -/
def buyMilk (status : String) : Task := ⟨0, "Buy milk", "", ⟨0, 0⟩, status⟩

/-- A table with two live rows after three creates and one delete. -/
def sampleTable : Table :=
  ⟨[⟨1, "Buy milk", some "", some ⟨0, 0⟩, some "open"⟩,
    ⟨3, "Walk dog", some "park", some ⟨86400, 3600⟩, some "open"⟩], 3⟩

/-- Context of a request on `/tasks/1` carrying a well-formed body. -/
def ctx1 : Context := ⟨"1", .ok (buyMilk "done")⟩

/-- Context of a request on `/tasks/7` carrying a well-formed body with an id of its own. -/
def ctx7 : Context := ⟨"7", .ok ⟨99, "Call mum", "", ⟨0, 0⟩, "open"⟩⟩

/-- Context of a request on `/tasks/abc`. -/
def ctxAbc : Context := ⟨"abc", .ok (buyMilk "done")⟩

/-- The create requests for a list of contexts, in order. -/
def createAll (cs : List Context) : List Request :=
  cs.map (fun c => ⟨Route.POST_tasks, c⟩)

/-- Invariant of the tables reachable from the empty one: the sequence counter lies between
0 and `MAX_ROWID`, and every rowid lies between 1 and the counter. -/
def Inv (t : Table) : Prop :=
  0 ≤ t.seq ∧ t.seq ≤ MAX_ROWID ∧ ∀ r ∈ t.rows, 1 ≤ r.id ∧ r.id ≤ t.seq

/-- Three creates followed by `DELETE /tasks/2`; they lead from the empty table to
`sampleTable`. -/
def sampleReqs : List Request :=
  [⟨Route.POST_tasks, ⟨"", .ok (buyMilk "open")⟩⟩,
   ⟨Route.POST_tasks, ⟨"", .ok ⟨5, "Pay rent", "", ⟨0, 0⟩, "open"⟩⟩⟩,
   ⟨Route.POST_tasks, ⟨"", .ok ⟨0, "Walk dog", "park", ⟨86400, 3600⟩, "open"⟩⟩⟩,
   ⟨Route.DELETE_task, ⟨"2", .error "EOF"⟩⟩]

/-- Two well-formed create contexts. -/
def sampleCreates : List Context :=
  [⟨"", .ok (buyMilk "open")⟩, ⟨"", .ok ⟨5, "Pay rent", "", ⟨0, 0⟩, "open"⟩⟩]

/-! ## The model on concrete inputs -/

theorem Atoi_examples :
    Atoi "abc" = none ∧ Atoi "" = none ∧ Atoi "+" = none ∧ Atoi "1_0" = none ∧
    Atoi "42" = some 42 ∧ Atoi "+42" = some 42 ∧ Atoi "-7" = some (-7) ∧
    Atoi "007" = some 7 ∧
    Atoi "9223372036854775807" = some 9223372036854775807 ∧
    Atoi "9223372036854775808" = none ∧
    Atoi "-9223372036854775808" = some (-9223372036854775808) := by
  decide

/-- On a fresh database file `initDB` leaves the empty table; an existing table is kept. -/
theorem initDB_spec (t : Table) :
    initDB none = some Table.empty ∧ initDB (some t) = some t :=
  ⟨rfl, rfl⟩

/-- The scenario of the specification: create is answered 201 with id 1, the update 200 with
the new status, the delete 200, and the final read 404. -/
theorem scenario_buy_milk :
    (run (some Table.empty)
      [⟨Route.POST_tasks, ⟨"", .ok (buyMilk "open")⟩⟩,
       ⟨Route.PUT_task, ⟨"1", .ok (buyMilk "done")⟩⟩,
       ⟨Route.DELETE_task, ⟨"1", .error "EOF"⟩⟩,
       ⟨Route.GET_task, ⟨"1", .error "EOF"⟩⟩]).1.map (fun x => x.2)
      = [⟨201, .task ⟨1, "Buy milk", "", ⟨0, 0⟩, "open"⟩⟩,
         ⟨200, .task ⟨1, "Buy milk", "", ⟨0, 0⟩, "done"⟩⟩,
         ⟨200, .H "message" "Task deleted successfully"⟩,
         ⟨404, .H "error" "Task not found"⟩] := by
  decide

/-- Ids are not reused: after create, delete, create the second create is answered id 2. -/
theorem scenario_no_reuse :
    createdIds (run (some Table.empty)
      [⟨Route.POST_tasks, ⟨"", .ok (buyMilk "open")⟩⟩,
       ⟨Route.DELETE_task, ⟨"1", .error "EOF"⟩⟩,
       ⟨Route.POST_tasks, ⟨"", .ok (buyMilk "open")⟩⟩]).1 = [1, 2] := by
  decide

/-! ## Basic facts about the model -/

theorem toInt_of_inRange (x : Int) (hlo : minInt ≤ x) (hhi : x ≤ maxInt) : toInt x = x := by
  simp only [toInt, minInt, maxInt, intSize] at *
  norm_num at *
  omega

theorem foldl_max_ge_init (rs : List Row) (m : Int) :
    m ≤ rs.foldl (fun m x => max m x.id) m := by
  induction rs generalizing m with
  | nil => simp
  | cons r rs ih =>
    simp only [List.foldl_cons]
    exact le_trans (le_max_left _ _) (ih _)

theorem foldl_max_ge_mem (rs : List Row) (m : Int) :
    ∀ r ∈ rs, r.id ≤ rs.foldl (fun m x => max m x.id) m := by
  induction rs generalizing m with
  | nil => simp
  | cons r rs ih =>
    intro x hx
    simp only [List.foldl_cons]
    rcases List.mem_cons.mp hx with h | h
    · subst h
      exact le_trans (le_max_right _ _) (foldl_max_ge_init rs _)
    · exact ih _ x h

theorem lastRowid_none (rows : List Row) (h : lastRowid rows = none) : rows = [] := by
  cases rows with
  | nil => rfl
  | cons r rs => simp [lastRowid] at h

theorem lastRowid_ge (rows : List Row) (m : Int) (h : lastRowid rows = some m) :
    ∀ r ∈ rows, r.id ≤ m := by
  cases rows with
  | nil => simp
  | cons r rs =>
    simp only [lastRowid, Option.some.injEq] at h
    subst h
    intro x hx
    rcases List.mem_cons.mp hx with h | h
    · subst h
      exact foldl_max_ge_init rs _
    · exact foldl_max_ge_mem rs _ x h

/-- A new rowid is above every rowid of the table and above the sequence counter. -/
theorem newRowid_spec (t : Table) (v : Int) (h : newRowid t = some v) :
    (∀ r ∈ t.rows, r.id < v) ∧ t.seq < v ∧ (t.seq ≤ MAX_ROWID → v ≤ MAX_ROWID) := by
  unfold newRowid at h
  by_cases hs : t.seq = MAX_ROWID
  · cases hl : lastRowid t.rows with
    | none => simp [hl, hs] at h
    | some m =>
      by_cases hm : m ≥ MAX_ROWID
      · simp [hl, hm] at h
      · simp [hl, hm, hs] at h
  · cases hl : lastRowid t.rows with
    | none =>
      have hrows := lastRowid_none _ hl
      simp only [hl, hs, if_false, Option.some.injEq] at h
      refine ⟨by simp [hrows], ?_, ?_⟩
      · split_ifs at h <;> omega
      · intro hle
        split_ifs at h
        · omega
        · rw [← h]; simp [MAX_ROWID]
    | some m =>
      have hge := lastRowid_ge _ m hl
      by_cases hm : m ≥ MAX_ROWID
      · simp [hl, hm] at h
      · simp only [hl, hm, hs, if_false, Option.some.injEq] at h
        refine ⟨fun r hr => ?_, ?_, ?_⟩
        · have := hge r hr
          split_ifs at h <;> omega
        · split_ifs at h <;> omega
        · intro hle
          split_ifs at h <;> omega

/-! ## Statement-level lemmas -/

theorem update_of_absent (t : Table) (title description : String) (due : Time)
    (status : String) (id : Int) (h : ∀ r ∈ t.rows, r.id ≠ id) :
    t.update title description due status id = t := by
  cases t with
  | mk rows seq =>
    simp only [Table.update, Table.mk.injEq, and_true]
    simp only at h
    induction rows with
    | nil => rfl
    | cons r rs ih =>
      have hr : r.id ≠ id := h r (List.mem_cons_self _ _)
      simp only [List.map_cons, hr, if_false, List.cons.injEq, true_and]
      exact ih (fun x hx => h x (List.mem_cons_of_mem _ hx))

theorem update_update (t : Table) (title description : String) (due : Time)
    (status : String) (id : Int) :
    (t.update title description due status id).update title description due status id
      = t.update title description due status id := by
  simp only [Table.update, Table.mk.injEq, and_true, List.map_map]
  apply List.map_congr_left
  intro r _
  by_cases hr : r.id = id <;> simp [hr]

theorem update_rows_other (t : Table) (title description : String) (due : Time)
    (status : String) (id : Int) :
    (t.update title description due status id).rows.filter (fun r => decide (r.id ≠ id))
      = t.rows.filter (fun r => decide (r.id ≠ id)) := by
  simp only [Table.update]
  induction t.rows with
  | nil => rfl
  | cons r rs ih =>
    by_cases hr : r.id = id
    · simp [hr, List.filter_cons]
      simpa using ih
    · simp [hr, List.filter_cons]
      simpa using ih

theorem update_rows_same (t : Table) (title description : String) (due : Time)
    (status : String) (id : Int) :
    ∀ r ∈ (t.update title description due status id).rows, r.id = id →
      r = ⟨id, title, some description, some due, some status⟩ := by
  intro r hr hid
  simp only [Table.update, List.mem_map] at hr
  obtain ⟨x, _, hx⟩ := hr
  by_cases hxid : x.id = id
  · simp only [hxid, if_true] at hx
    exact hx.symm
  · simp only [hxid, if_false] at hx
    subst hx
    exact absurd hid hxid

theorem queryRow_update (t : Table) (title description : String) (due : Time)
    (status : String) (id : Int) (h : ∃ r ∈ t.rows, r.id = id) :
    (t.update title description due status id).queryRow id
      = some ⟨id, title, some description, some due, some status⟩ := by
  obtain ⟨x, hx, hxid⟩ := h
  cases t with
  | mk rows seq =>
    simp only [Table.queryRow, Table.update]
    simp only at hx
    induction rows with
    | nil => simp at hx
    | cons r rs ih =>
      by_cases hr : r.id = id
      · simp [hr]
      · have hxr : x ∈ rs := by
          rcases List.mem_cons.mp hx with h1 | h1
          · subst h1
            exact absurd hxid hr
          · exact h1
        simp only [List.map_cons, hr, if_false, List.find?_cons, decide_False]
        exact ih hxr

theorem queryRow_delete (t : Table) (id : Int) : (t.delete id).queryRow id = none := by
  simp only [Table.queryRow, Table.delete, List.find?_eq_none, List.mem_filter]
  intro r hr
  simpa using hr.2

theorem delete_of_absent (t : Table) (id : Int) (h : ∀ r ∈ t.rows, r.id ≠ id) :
    t.delete id = t := by
  cases t with
  | mk rows seq =>
    simp only [Table.delete, Table.mk.injEq, and_true, List.filter_eq_self]
    intro r hr
    simpa using h r hr

theorem delete_rows_other (t : Table) (id : Int) :
    (t.delete id).rows.filter (fun r => decide (r.id ≠ id))
      = t.rows.filter (fun r => decide (r.id ≠ id)) := by
  simp [Table.delete, List.filter_filter]

/-! ## Single-request properties -/

/-- C3: on the id of an existing row and a well-formed body, `updateTask` answers 200 and
overwrites title, description, due_date and status of that row with the body's values;
a following `getTask` on that id answers 200 with exactly these values and the path id;
and applying the same update again leaves the stored table as it is. -/
theorem updateTask_existing (t : Table) (c : Context) (id : Int) (task : Task)
    (hid : Atoi c.Param = some id) (hbody : c.ShouldBindJSON = .ok task)
    (hrow : ∃ r ∈ t.rows, r.id = id) :
    ∃ t1 : Table,
      updateTask c (some t)
        = (⟨200, .task ⟨id, task.Title, task.Description, task.DueDate, task.Status⟩⟩, some t1) ∧
      (∃ r ∈ t1.rows, r.id = id) ∧
      (∀ r ∈ t1.rows, r.id = id →
        r = ⟨id, task.Title, some task.Description, some task.DueDate, some task.Status⟩) ∧
      (∀ c2 : Context, Atoi c2.Param = some id →
        getTask c2 (some t1)
          = (⟨200, .task ⟨id, task.Title, task.Description, task.DueDate, task.Status⟩⟩,
              some t1)) ∧
      (updateTask c (some t1)).2 = some t1 := by
  refine ⟨t.update task.Title task.Description task.DueDate task.Status id, ?_, ?_, ?_, ?_, ?_⟩
  · simp [updateTask, hid, hbody]
  · obtain ⟨r, hr, hrid⟩ := hrow
    refine ⟨⟨id, task.Title, some task.Description, some task.DueDate, some task.Status⟩, ?_, rfl⟩
    simp only [Table.update, List.mem_map]
    exact ⟨r, hr, by simp [hrid]⟩
  · exact update_rows_same t _ _ _ _ id
  · intro c2 hc2
    simp [getTask, hc2, queryRow_update t _ _ _ _ id hrow, scan]
  · simp [updateTask, hid, hbody, update_update]

/-- Witness of C3 on `sampleTable` and the request `PUT /tasks/1`. -/
theorem updateTask_existing_witness :
    Atoi ctx1.Param = some 1 ∧ ctx1.ShouldBindJSON = .ok (buyMilk "done") ∧
    (∃ r ∈ sampleTable.rows, r.id = 1) ∧
    ∃ t1 : Table,
      updateTask ctx1 (some sampleTable)
        = (⟨200, .task ⟨1, "Buy milk", "", ⟨0, 0⟩, "done"⟩⟩, some t1) ∧
      getTask ctx1 (some t1) = (⟨200, .task ⟨1, "Buy milk", "", ⟨0, 0⟩, "done"⟩⟩, some t1) ∧
      (updateTask ctx1 (some t1)).2 = some t1 := by
  have hid : Atoi ctx1.Param = some 1 := by decide
  have hrow : ∃ r ∈ sampleTable.rows, r.id = 1 :=
    ⟨⟨1, "Buy milk", some "", some ⟨0, 0⟩, some "open"⟩, by simp [sampleTable], rfl⟩
  obtain ⟨t1, h1, _, _, h4, h5⟩ :=
    updateTask_existing sampleTable ctx1 1 (buyMilk "done") hid rfl hrow
  exact ⟨hid, rfl, hrow, t1, h1, h4 ctx1 hid, h5⟩

/-- C4: on an integer path id that matches no row and a well-formed body, `updateTask`
answers 200 with the submitted task whose id is the path id, whatever id the body gave,
and the table is left as it was. -/
theorem updateTask_missing (t : Table) (c : Context) (id : Int) (task : Task)
    (hid : Atoi c.Param = some id) (hbody : c.ShouldBindJSON = .ok task)
    (hno : ∀ r ∈ t.rows, r.id ≠ id) :
    updateTask c (some t)
      = (⟨200, .task ⟨id, task.Title, task.Description, task.DueDate, task.Status⟩⟩, some t) := by
  simp [updateTask, hid, hbody, update_of_absent t _ _ _ _ id hno]

/-- Witness of C4 on `sampleTable` and the request `PUT /tasks/7` whose body says id 99. -/
theorem updateTask_missing_witness :
    Atoi ctx7.Param = some 7 ∧ (∀ r ∈ sampleTable.rows, r.id ≠ 7) ∧
    updateTask ctx7 (some sampleTable)
      = (⟨200, .task ⟨7, "Call mum", "", ⟨0, 0⟩, "open"⟩⟩, some sampleTable) :=
  ⟨by decide, by decide,
    updateTask_missing sampleTable ctx7 7 ⟨99, "Call mum", "", ⟨0, 0⟩, "open"⟩
      (by decide) rfl (by decide)⟩

/-- C5: on an integer path id `deleteTask` answers 200 with the success message whether or
not a row has that id; when none has, the table is unchanged; and `getTask` on the same id
in the resulting state answers 404. -/
theorem deleteTask_then_getTask (t : Table) (c : Context) (id : Int)
    (hid : Atoi c.Param = some id) :
    (deleteTask c (some t)).1 = ⟨200, .H "message" "Task deleted successfully"⟩ ∧
    ((∀ r ∈ t.rows, r.id ≠ id) → (deleteTask c (some t)).2 = some t) ∧
    (∀ c2 : Context, Atoi c2.Param = some id →
      (getTask c2 (deleteTask c (some t)).2).1 = ⟨404, .H "error" "Task not found"⟩) := by
  refine ⟨by simp [deleteTask, hid], ?_, ?_⟩
  · intro hno
    simp [deleteTask, hid, delete_of_absent t id hno]
  · intro c2 hc2
    simp [deleteTask, hid, getTask, hc2, queryRow_delete]

/-- Witness of C5 on `sampleTable` and the request `DELETE /tasks/1`. -/
theorem deleteTask_then_getTask_witness :
    Atoi ctx1.Param = some 1 ∧
    (deleteTask ctx1 (some sampleTable)).1 = ⟨200, .H "message" "Task deleted successfully"⟩ ∧
    (getTask ctx1 (deleteTask ctx1 (some sampleTable)).2).1
      = ⟨404, .H "error" "Task not found"⟩ :=
  have h := deleteTask_then_getTask sampleTable ctx1 1 (by decide)
  ⟨by decide, h.1, h.2.2 ctx1 (by decide)⟩

/-- C8: when the path id does not parse as an integer, `getTask`, `updateTask` (whatever
the body) and `deleteTask` each answer 400 and leave the storage unchanged. -/
theorem invalid_id_bad_request (c : Context) (db : DB) (h : Atoi c.Param = none) :
    getTask c db = (⟨400, .H "error" "Invalid task ID"⟩, db) ∧
    updateTask c db = (⟨400, .H "error" "Invalid task ID"⟩, db) ∧
    deleteTask c db = (⟨400, .H "error" "Invalid task ID"⟩, db) := by
  simp [getTask, updateTask, deleteTask, h]

/-- Witness of C8 on the path `/tasks/abc`. -/
theorem invalid_id_bad_request_witness :
    Atoi ctxAbc.Param = none ∧
    getTask ctxAbc (some sampleTable) = (⟨400, .H "error" "Invalid task ID"⟩, some sampleTable) ∧
    updateTask ctxAbc (some sampleTable)
      = (⟨400, .H "error" "Invalid task ID"⟩, some sampleTable) ∧
    deleteTask ctxAbc (some sampleTable)
      = (⟨400, .H "error" "Invalid task ID"⟩, some sampleTable) :=
  ⟨by decide, invalid_id_bad_request ctxAbc (some sampleTable) (by decide)⟩

/-- C10: `updateTask` and `deleteTask` addressed to the integer id `i` leave the rows whose
id differs from `i` as they were, all still present and in the same order; `getTask` and
`listTasks` never change the storage. -/
theorem frame_other_rows (t : Table) (c : Context) (i : Int) (hid : Atoi c.Param = some i) :
    (∃ t1 : Table, (updateTask c (some t)).2 = some t1 ∧
      t1.rows.filter (fun r => decide (r.id ≠ i)) = t.rows.filter (fun r => decide (r.id ≠ i))) ∧
    (∃ t2 : Table, (deleteTask c (some t)).2 = some t2 ∧
      t2.rows.filter (fun r => decide (r.id ≠ i)) = t.rows.filter (fun r => decide (r.id ≠ i))) ∧
    (∀ (c2 : Context) (db : DB), (getTask c2 db).2 = db ∧ (listTasks c2 db).2 = db) := by
  refine ⟨?_, ?_, ?_⟩
  · cases hb : c.ShouldBindJSON with
    | error e => exact ⟨t, by simp [updateTask, hid, hb], rfl⟩
    | ok task =>
      exact ⟨t.update task.Title task.Description task.DueDate task.Status i,
        by simp [updateTask, hid, hb], update_rows_other t _ _ _ _ i⟩
  · exact ⟨t.delete i, by simp [deleteTask, hid], delete_rows_other t i⟩
  · intro c2 db
    constructor
    · unfold getTask
      split
      · rfl
      · split <;> rfl
    · unfold listTasks
      split
      · rfl
      · split <;> rfl

/-- Witness of C10 on `sampleTable` and requests addressed to `/tasks/1`: row 3 stays. -/
theorem frame_other_rows_witness :
    Atoi ctx1.Param = some 1 ∧
    (∃ t1 : Table, (updateTask ctx1 (some sampleTable)).2 = some t1 ∧
      t1.rows.filter (fun r => decide (r.id ≠ 1))
        = [⟨3, "Walk dog", some "park", some ⟨86400, 3600⟩, some "open"⟩]) ∧
    (∃ t2 : Table, (deleteTask ctx1 (some sampleTable)).2 = some t2 ∧
      t2.rows.filter (fun r => decide (r.id ≠ 1))
        = [⟨3, "Walk dog", some "park", some ⟨86400, 3600⟩, some "open"⟩]) := by
  have h := frame_other_rows sampleTable ctx1 1 (by decide)
  obtain ⟨⟨t1, h1, h1r⟩, ⟨t2, h2, h2r⟩, _⟩ := h
  have hs : sampleTable.rows.filter (fun r => decide (r.id ≠ 1))
      = [⟨3, "Walk dog", some "park", some ⟨86400, 3600⟩, some "open"⟩] := by decide
  exact ⟨by decide, ⟨t1, h1, h1r.trans hs⟩, ⟨t2, h2, h2r.trans hs⟩⟩

/-- C7: on a table without rows `listTasks` answers 200, but the slice it hands to the
encoder is still nil, so the body is JSON `null` and not the empty array. -/
theorem listTasks_empty_body_null (c : Context) (seq : Int) :
    (listTasks c (some ⟨[], seq⟩)).1.status = 200 ∧
    (listTasks c (some ⟨[], seq⟩)).1.body = Json.null ∧
    (listTasks c (some ⟨[], seq⟩)).1.body ≠ Json.array [] := by
  simp [listTasks, listLoop, Response.body, Obj.toJSON]

/-! ## Request sequences -/

/-- The three outcomes of `createTask` on an existing table. -/
theorem createTask_cases (c : Context) (t : Table) :
    (∃ err, c.ShouldBindJSON = .error err ∧
      createTask c (some t) = (⟨400, .H "error" err⟩, some t)) ∨
    (∃ task, c.ShouldBindJSON = .ok task ∧ newRowid t = none ∧
      createTask c (some t) = (⟨500, .H "error" "Failed to create task"⟩, some t)) ∨
    (∃ task v, c.ShouldBindJSON = .ok task ∧ newRowid t = some v ∧
      createTask c (some t)
        = (⟨201, .task ⟨toInt v, task.Title, task.Description, task.DueDate, task.Status⟩⟩,
            some ⟨t.rows ++
              [⟨v, task.Title, some task.Description, some task.DueDate, some task.Status⟩], v⟩)) := by
  cases hb : c.ShouldBindJSON with
  | error err => exact Or.inl ⟨err, rfl, by simp [createTask, hb]⟩
  | ok task =>
    cases hn : newRowid t with
    | none => exact Or.inr (Or.inl ⟨task, rfl, rfl, by simp [createTask, hb, Table.insert, hn]⟩)
    | some v =>
      exact Or.inr (Or.inr ⟨task, v, rfl, rfl, by simp [createTask, hb, Table.insert, hn]⟩)

theorem inv_empty : Inv Table.empty := by
  simp [Inv, Table.empty, MAX_ROWID]

theorem toInt_newRowid (t : Table) (h : Inv t) (v : Int) (hv : newRowid t = some v) :
    toInt v = v ∧ t.seq < v ∧ v ≤ MAX_ROWID := by
  obtain ⟨_, h2, h3⟩ := newRowid_spec t v hv
  have h4 := h3 h.2.1
  have h0 := h.1
  refine ⟨toInt_of_inRange v ?_ ?_, h2, h4⟩
  · simp only [minInt, intSize]
    norm_num
    omega
  · simp only [maxInt, intSize]
    simp only [MAX_ROWID] at h4
    norm_num at h4 ⊢
    omega

/-- One request on a table satisfying the invariant: the table still exists and satisfies
the invariant, the counter did not decrease, an id answered by a create lies above the old
counter and is the new counter, and every row carries an old rowid or the created id. -/
theorem serve_step (rq : Request) (t : Table) (h : Inv t) :
    ∃ t1 : Table, (serve rq (some t)).2 = some t1 ∧ Inv t1 ∧ t.seq ≤ t1.seq ∧
      (∀ i, createdId (rq, (serve rq (some t)).1) = some i → t.seq < i ∧ i ≤ t1.seq) ∧
      (∀ r ∈ t1.rows, (∃ r0 ∈ t.rows, r0.id = r.id) ∨
        createdId (rq, (serve rq (some t)).1) = some r.id) := by
  obtain ⟨rt, c⟩ := rq
  cases rt with
  | POST_tasks =>
    rcases createTask_cases c t with ⟨err, _, hc⟩ | ⟨task, _, _, hc⟩ | ⟨task, v, _, hn, hc⟩
    · refine ⟨t, by simp [serve, hc], h, le_refl _, ?_, fun r hr => Or.inl ⟨r, hr, rfl⟩⟩
      simp [serve, hc, createdId]
    · refine ⟨t, by simp [serve, hc], h, le_refl _, ?_, fun r hr => Or.inl ⟨r, hr, rfl⟩⟩
      simp [serve, hc, createdId]
    · obtain ⟨hto, hlt, hle⟩ := toInt_newRowid t h v hn
      refine ⟨⟨t.rows ++
          [⟨v, task.Title, some task.Description, some task.DueDate, some task.Status⟩], v⟩,
        by simp only [serve, hc], ?_, ?_, ?_, ?_⟩
      · have h0 := h.1
        refine ⟨by simp only; omega, hle, ?_⟩
        intro r hr
        simp only [List.mem_append, List.mem_singleton] at hr
        rcases hr with hr | hr
        · have := h.2.2 r hr
          exact ⟨this.1, by simp only; omega⟩
        · subst hr
          have := h.1
          exact ⟨by simp only; omega, le_refl _⟩
      · simp only
        omega
      · intro i hi
        simp only [serve, hc, createdId, if_true, Option.some.injEq, hto] at hi
        subst hi
        exact ⟨hlt, le_refl _⟩
      · intro r hr
        simp only [List.mem_append, List.mem_singleton] at hr
        rcases hr with hr | hr
        · exact Or.inl ⟨r, hr, rfl⟩
        · subst hr
          right
          simp [serve, hc, createdId, hto]
  | GET_task =>
    have hg : (getTask c (some t)).2 = some t := by
      unfold getTask
      split
      · rfl
      · split <;> rfl
    refine ⟨t, by simp [serve, hg], h, le_refl _, ?_, fun r hr => Or.inl ⟨r, hr, rfl⟩⟩
    simp [serve, createdId]
  | PUT_task =>
    cases hp : Atoi c.Param with
    | none =>
      refine ⟨t, by simp [serve, updateTask, hp], h, le_refl _, ?_,
        fun r hr => Or.inl ⟨r, hr, rfl⟩⟩
      simp [serve, createdId]
    | some id =>
      cases hb : c.ShouldBindJSON with
      | error e =>
        refine ⟨t, by simp [serve, updateTask, hp, hb], h, le_refl _, ?_,
          fun r hr => Or.inl ⟨r, hr, rfl⟩⟩
        simp [serve, createdId]
      | ok task =>
        have hids : ∀ r ∈ (t.update task.Title task.Description task.DueDate task.Status id).rows,
            ∃ r0 ∈ t.rows, r0.id = r.id := by
          intro r hr
          simp only [Table.update, List.mem_map] at hr
          obtain ⟨x, hx, hxr⟩ := hr
          refine ⟨x, hx, ?_⟩
          by_cases hxid : x.id = id
          · simp only [hxid, if_true] at hxr
            rw [← hxr, hxid]
          · simp only [hxid, if_false] at hxr
            rw [hxr]
        refine ⟨t.update task.Title task.Description task.DueDate task.Status id,
          by simp [serve, updateTask, hp, hb], ?_, le_refl _, ?_, fun r hr => Or.inl (hids r hr)⟩
        · refine ⟨h.1, h.2.1, fun r hr => ?_⟩
          obtain ⟨r0, hr0, he⟩ := hids r hr
          rw [← he]
          exact h.2.2 r0 hr0
        · simp [serve, createdId]
  | DELETE_task =>
    cases hp : Atoi c.Param with
    | none =>
      refine ⟨t, by simp [serve, deleteTask, hp], h, le_refl _, ?_,
        fun r hr => Or.inl ⟨r, hr, rfl⟩⟩
      simp [serve, createdId]
    | some id =>
      have hsub : ∀ r ∈ (t.delete id).rows, r ∈ t.rows := by
        intro r hr
        simp only [Table.delete, List.mem_filter] at hr
        exact hr.1
      refine ⟨t.delete id, by simp [serve, deleteTask, hp], ?_, le_refl _, ?_,
        fun r hr => Or.inl ⟨r, hsub r hr, rfl⟩⟩
      · exact ⟨h.1, h.2.1, fun r hr => h.2.2 r (hsub r hr)⟩
      · simp [serve, createdId]
  | GET_tasks =>
    have hg : (listTasks c (some t)).2 = some t := by
      unfold listTasks
      split
      · rfl
      · split <;> rfl
    refine ⟨t, by simp [serve, hg], h, le_refl _, ?_, fun r hr => Or.inl ⟨r, hr, rfl⟩⟩
    simp [serve, createdId]

theorem run_cons (db : DB) (rq : Request) (rest : List Request) :
    run db (rq :: rest)
      = ((rq, (serve rq db).1) :: (run (serve rq db).2 rest).1, (run (serve rq db).2 rest).2) :=
  rfl

theorem createdIds_cons (x : Request × Response) (tr : List (Request × Response)) :
    createdIds (x :: tr)
      = match createdId x with
        | none => createdIds tr
        | some i => i :: createdIds tr := by
  simp only [createdIds, List.filterMap_cons]
  cases createdId x <;> rfl

/-- A request sequence on a table satisfying the invariant: the final table satisfies it,
the ids answered by creates lie above the initial counter, strictly increase along the
sequence, and every final row carries an initial rowid or an id answered by a create. -/
theorem run_spec (reqs : List Request) : ∀ t : Table, Inv t →
    ∃ t1 : Table, (run (some t) reqs).2 = some t1 ∧ Inv t1 ∧ t.seq ≤ t1.seq ∧
      (∀ i ∈ createdIds (run (some t) reqs).1, t.seq < i ∧ i ≤ t1.seq) ∧
      (createdIds (run (some t) reqs).1).Pairwise (fun a b => a < b) ∧
      (∀ r ∈ t1.rows, (∃ r0 ∈ t.rows, r0.id = r.id) ∨
        r.id ∈ createdIds (run (some t) reqs).1) := by
  induction reqs with
  | nil =>
    intro t h
    exact ⟨t, rfl, h, le_refl _, by simp [run, createdIds], by simp [run, createdIds],
      fun r hr => Or.inl ⟨r, hr, rfl⟩⟩
  | cons rq rest ih =>
    intro t h
    obtain ⟨t1, hs, hinv1, hseq1, hnew1, hrows1⟩ := serve_step rq t h
    obtain ⟨t2, hr2, hinv2, hseq2, hnew2, hpw2, hrows2⟩ := ih t1 hinv1
    rw [run_cons, hs]
    refine ⟨t2, hr2, hinv2, le_trans hseq1 hseq2, ?_, ?_, ?_⟩
    · intro i hi
      simp only [createdIds_cons] at hi
      cases hc : createdId (rq, (serve rq (some t)).1) with
      | none =>
        simp only [hc] at hi
        have := hnew2 i hi
        exact ⟨by omega, this.2⟩
      | some j =>
        simp only [hc, List.mem_cons] at hi
        rcases hi with hi | hi
        · subst hi
          have := hnew1 i hc
          exact ⟨this.1, by omega⟩
        · have := hnew2 i hi
          exact ⟨by omega, this.2⟩
    · simp only [createdIds_cons]
      cases hc : createdId (rq, (serve rq (some t)).1) with
      | none => simpa only [hc] using hpw2
      | some j =>
        simp only [hc, List.pairwise_cons]
        refine ⟨fun k hk => ?_, hpw2⟩
        have h1 := hnew1 j hc
        have h2 := hnew2 k hk
        omega
    · intro r hr
      simp only [createdIds_cons]
      rcases hrows2 r hr with ⟨r1, hr1, he⟩ | hmem
      · rcases hrows1 r1 hr1 with ⟨r0, hr0, he0⟩ | hc
        · exact Or.inl ⟨r0, hr0, he0.trans he⟩
        · right
          simp only [hc, List.mem_cons]
          exact Or.inl he.symm
      · right
        cases hc : createdId (rq, (serve rq (some t)).1) with
        | none => simpa only [hc] using hmem
        | some j =>
          simp only [hc, List.mem_cons]
          exact Or.inr hmem

/-- Every reachable table satisfies the invariant. -/
theorem inv_of_reachable (t : Table) (h : Reachable t) : Inv t := by
  obtain ⟨reqs, hr⟩ := h
  obtain ⟨t1, h1, hinv, _⟩ := run_spec reqs Table.empty inv_empty
  rw [hr] at h1
  cases h1
  exact hinv

/-- Each entry of a trace pairs a request with the answer of its handler on some storage. -/
theorem trace_mem (reqs : List Request) : ∀ (db : DB) (x : Request × Response),
    x ∈ (run db reqs).1 → ∃ db0 : DB, x.2 = (serve x.1 db0).1 := by
  induction reqs with
  | nil =>
    intro db x hx
    simp [run] at hx
  | cons rq rest ih =>
    intro db x hx
    rw [run_cons] at hx
    rcases List.mem_cons.mp hx with h | h
    · subst h
      exact ⟨db, rfl⟩
    · exact ih _ x h

/-- A create answered 201 carries a task. -/
theorem createTask_201 (c : Context) (db : DB) (h : (createTask c db).1.status = 201) :
    ∃ task : Task, (createTask c db).1 = ⟨201, .task task⟩ := by
  unfold createTask at h ⊢
  split at h
  · simp at h
  · split at h
    · simp at h
    · split at h
      · simp at h
      · exact ⟨_, rfl⟩

/-! ## Properties of request sequences -/

/-- C2: along every sequence of requests served from the empty table, each create answered
201 carries a task id, these ids are positive, and each differs from the ids answered by the
earlier creates, whether their rows were deleted since and whatever id the bodies gave. -/
theorem created_ids_fresh (reqs : List Request) :
    (∀ x ∈ (run (some Table.empty) reqs).1, x.1.route = Route.POST_tasks → x.2.status = 201 →
      ∃ task : Task, x.2.obj = .task task ∧
        task.ID ∈ createdIds (run (some Table.empty) reqs).1) ∧
    (∀ i ∈ createdIds (run (some Table.empty) reqs).1, 0 < i) ∧
    (createdIds (run (some Table.empty) reqs).1).Pairwise (fun a b => a ≠ b) := by
  obtain ⟨t1, _, _, _, hnew, hpw, _⟩ := run_spec reqs Table.empty inv_empty
  refine ⟨?_, ?_, ?_⟩
  · intro x hx hroute hstatus
    obtain ⟨db0, hdb0⟩ := trace_mem reqs _ x hx
    simp only [serve, hroute] at hdb0
    rw [hdb0] at hstatus
    obtain ⟨task, htask⟩ := createTask_201 _ _ hstatus
    rw [← hdb0] at htask
    refine ⟨task, by rw [htask], ?_⟩
    simp only [createdIds, List.mem_filterMap]
    exact ⟨x, hx, by simp [createdId, hroute, htask]⟩
  · intro i hi
    have := (hnew i hi).1
    simpa [Table.empty] using this
  · exact hpw.imp (fun h => ne_of_lt h)

/-- C9: in the state reached from the empty table by any sequence of requests, `getTask` on
an integer id that no create of the sequence answered is answered 404. -/
theorem getTask_unassigned (reqs : List Request) (c : Context) (i : Int)
    (hid : Atoi c.Param = some i)
    (hnew : i ∉ createdIds (run (some Table.empty) reqs).1) :
    (getTask c (run (some Table.empty) reqs).2).1 = ⟨404, .H "error" "Task not found"⟩ := by
  obtain ⟨t1, h1, _, _, _, _, hrows⟩ := run_spec reqs Table.empty inv_empty
  have hnone : t1.queryRow i = none := by
    simp only [Table.queryRow, List.find?_eq_none, decide_eq_true_eq]
    intro r hr hri
    rcases hrows r hr with ⟨r0, hr0, _⟩ | hmem
    · simp [Table.empty] at hr0
    · rw [hri] at hmem
      exact hnew hmem
  simp [getTask, hid, h1, hnone]

/-- Witness of C9: after `sampleReqs` and an update on `/tasks/7`, id 7 is still unreadable. -/
theorem getTask_unassigned_witness :
    Atoi ctx7.Param = some 7 ∧
    7 ∉ createdIds (run (some Table.empty) (sampleReqs ++ [⟨Route.PUT_task, ctx7⟩])).1 ∧
    (getTask ctx7 (run (some Table.empty) (sampleReqs ++ [⟨Route.PUT_task, ctx7⟩])).2).1
      = ⟨404, .H "error" "Task not found"⟩ :=
  ⟨by decide, by decide,
    getTask_unassigned (sampleReqs ++ [⟨Route.PUT_task, ctx7⟩]) ctx7 7 (by decide) (by decide)⟩

theorem sampleTable_reachable : Reachable sampleTable :=
  ⟨sampleReqs, by decide⟩

/-- C1: in a reachable table state, when `createTask` on a well-formed body answers 201
with a task, `getTask` on the id of that task in the resulting state answers 200 with that
id and with the title, description, due_date and status submitted in the body. -/
theorem createTask_then_getTask (t : Table) (hr : Reachable t) (c : Context)
    (task created : Task) (hbody : c.ShouldBindJSON = .ok task)
    (hc : (createTask c (some t)).1 = ⟨201, .task created⟩)
    (c2 : Context) (hid : Atoi c2.Param = some created.ID) :
    (getTask c2 (createTask c (some t)).2).1
      = ⟨200, .task ⟨created.ID, task.Title, task.Description, task.DueDate, task.Status⟩⟩ := by
  have hinv := inv_of_reachable t hr
  rcases createTask_cases c t with ⟨err, _, h⟩ | ⟨task1, _, _, h⟩ | ⟨task1, v, hb1, hn, h⟩
  · rw [h] at hc
    simp at hc
  · rw [h] at hc
    simp at hc
  · rw [hbody] at hb1
    cases hb1
    obtain ⟨hto, _, _⟩ := toInt_newRowid t hinv v hn
    obtain ⟨hlt, _, _⟩ := newRowid_spec t v hn
    rw [h] at hc
    simp only [Response.mk.injEq, true_and, Obj.task.injEq] at hc
    have hcid : created.ID = v := by rw [← hc, hto]
    rw [hcid] at hid ⊢
    have hfind : t.rows.find? (fun r => decide (r.id = v)) = none := by
      simp only [List.find?_eq_none, decide_eq_true_eq]
      intro r hr1 hrv
      have := hlt r hr1
      omega
    simp [h, getTask, hid, Table.queryRow, List.find?_append, hfind, scan]

/-- Witness of C1 on `sampleTable`: the create is answered with id 4, which reads back. -/
theorem createTask_then_getTask_witness :
    Reachable sampleTable ∧
    (createTask ctx7 (some sampleTable)).1 = ⟨201, .task ⟨4, "Call mum", "", ⟨0, 0⟩, "open"⟩⟩ ∧
    Atoi (Context.Param ⟨"4", .error "EOF"⟩) = some 4 ∧
    (getTask ⟨"4", .error "EOF"⟩ (createTask ctx7 (some sampleTable)).2).1
      = ⟨200, .task ⟨4, "Call mum", "", ⟨0, 0⟩, "open"⟩⟩ :=
  ⟨sampleTable_reachable, by decide, by decide,
    createTask_then_getTask sampleTable sampleTable_reachable ctx7
      ⟨99, "Call mum", "", ⟨0, 0⟩, "open"⟩ ⟨4, "Call mum", "", ⟨0, 0⟩, "open"⟩ rfl (by decide)
      ⟨"4", .error "EOF"⟩ (by decide)⟩

/-! ## Listing after creates and a delete -/

/-- On rows that all scan, the loop of `listTasks` ends without error, appends one task per
row, and its slice is non-nil as soon as there was a row or the slice was non-nil before. -/
theorem listLoop_ok (rows : List Row) : ∀ acc : Slice Task,
    (∀ r ∈ rows, ∃ task, scan r = some task) →
    ∃ s : Slice Task, listLoop rows acc = some s ∧ s.len = acc.len + rows.length ∧
      ((acc ≠ Slice.nil ∨ rows ≠ []) → ∃ ts, s = Slice.mk ts) := by
  induction rows with
  | nil =>
    intro acc _
    refine ⟨acc, rfl, by simp, ?_⟩
    intro h
    cases acc with
    | nil => simp at h
    | mk ts => exact ⟨ts, rfl⟩
  | cons r rs ih =>
    intro acc hall
    obtain ⟨task, htask⟩ := hall r (List.mem_cons_self _ _)
    obtain ⟨s, hs, hlen, hmk⟩ := ih (acc.append task) (fun x hx => hall x (List.mem_cons_of_mem _ hx))
    refine ⟨s, by simp [listLoop, htask, hs], ?_, ?_⟩
    · rw [hlen]
      cases acc <;> simp [Slice.append, Slice.len] <;> omega
    · intro _
      apply hmk
      left
      cases acc <;> simp [Slice.append]

/-- Deleting by a rowid that is present removes exactly one row when rowids are distinct. -/
theorem filter_ne_length (rows : List Row) (i : Int) (hnd : (rows.map Row.id).Nodup)
    (hi : ∃ r ∈ rows, r.id = i) :
    (rows.filter (fun r => decide (r.id ≠ i))).length + 1 = rows.length := by
  induction rows with
  | nil => simp at hi
  | cons r rs ih =>
    simp only [List.map_cons, List.nodup_cons, List.mem_map, not_exists, not_and] at hnd
    by_cases hr : r.id = i
    · have hall : ∀ x ∈ rs, x.id ≠ i := by
        intro x hx hxi
        exact hnd.1 x hx (hxi.trans hr.symm)
      have hfilter : rs.filter (fun r => decide (r.id ≠ i)) = rs := by
        simp only [List.filter_eq_self]
        intro x hx
        simpa using hall x hx
      rw [List.filter_cons_of_neg (by simpa using hr), hfilter]
      simp
    · have hi2 : ∃ x ∈ rs, x.id = i := by
        obtain ⟨x, hx, hxi⟩ := hi
        rcases List.mem_cons.mp hx with h | h
        · subst h
          exact absurd hxi hr
        · exact ⟨x, h, hxi⟩
      have := ih hnd.2 hi2
      rw [List.filter_cons_of_pos (by simpa using hr)]
      simp only [List.length_cons]
      omega

/-- A run of creates that are all answered 201, from a table with distinct rowids whose
rows all scan: one row is added per create, rowids stay distinct, rows still scan, old
rows stay, and every id answered is the rowid of a row of the final table. -/
theorem run_createAll (cs : List Context) : ∀ t : Table, Inv t →
    (t.rows.map Row.id).Nodup → (∀ r ∈ t.rows, ∃ task, scan r = some task) →
    (∀ x ∈ (run (some t) (createAll cs)).1, x.2.status = 201) →
    ∃ t1 : Table, (run (some t) (createAll cs)).2 = some t1 ∧
      t1.rows.length = t.rows.length + cs.length ∧
      (t1.rows.map Row.id).Nodup ∧ (∀ r ∈ t1.rows, ∃ task, scan r = some task) ∧
      (∀ r ∈ t.rows, r ∈ t1.rows) ∧
      (∀ i ∈ createdIds (run (some t) (createAll cs)).1, ∃ r ∈ t1.rows, r.id = i) := by
  induction cs with
  | nil =>
    intro t _ hnd hscan _
    exact ⟨t, rfl, by simp, hnd, hscan, fun r hr => hr, by simp [createAll, run, createdIds]⟩
  | cons c rest ih =>
    intro t hinv hnd hscan hok
    have hrun : run (some t) (createAll (c :: rest))
        = ((⟨Route.POST_tasks, c⟩, (createTask c (some t)).1)
            :: (run (createTask c (some t)).2 (createAll rest)).1,
           (run (createTask c (some t)).2 (createAll rest)).2) := rfl
    rw [hrun] at hok ⊢
    have h201 : (createTask c (some t)).1.status = 201 := hok _ (List.mem_cons_self _ _)
    rcases createTask_cases c t with ⟨err, _, h⟩ | ⟨task, _, _, h⟩ | ⟨task, v, _, hn, h⟩
    · simp [h] at h201
    · simp [h] at h201
    · obtain ⟨hto, _, _⟩ := toInt_newRowid t hinv v hn
      obtain ⟨hlt, _, _⟩ := newRowid_spec t v hn
      obtain ⟨t1, hs1, hinv1, _⟩ := serve_step ⟨Route.POST_tasks, c⟩ t hinv
      simp only [serve, h, Option.some.injEq] at hs1
      rw [← hs1] at hinv1
      rw [h] at hok ⊢
      have hnd1 : ((t.rows ++
          [(⟨v, task.Title, some task.Description, some task.DueDate, some task.Status⟩ : Row)]).map
            Row.id).Nodup := by
        simp only [List.map_append, List.map_cons, List.map_nil]
        refine List.Nodup.append hnd (List.nodup_singleton _) ?_
        intro a ha hb
        simp only [List.mem_singleton] at hb
        simp only [List.mem_map] at ha
        obtain ⟨r, hr, hra⟩ := ha
        have := hlt r hr
        omega
      have hscan1 : ∀ r ∈ t.rows ++
          [(⟨v, task.Title, some task.Description, some task.DueDate, some task.Status⟩ : Row)],
          ∃ task, scan r = some task := by
        intro r hr
        simp only [List.mem_append, List.mem_singleton] at hr
        rcases hr with hr | hr
        · exact hscan r hr
        · subst hr
          exact ⟨_, rfl⟩
      obtain ⟨t2, hr2, hlen2, hnd2, hscan2, hsub2, hids2⟩ :=
        ih _ hinv1 hnd1 hscan1 (fun x hx => hok x (List.mem_cons_of_mem _ hx))
      refine ⟨t2, hr2, ?_, hnd2, hscan2, ?_, ?_⟩
      · rw [hlen2]
        simp only [List.length_append, List.length_cons, List.length_nil]
        omega
      · intro r hr
        exact hsub2 r (List.mem_append_left _ hr)
      · intro i hi
        simp only [createdIds_cons, createdId, if_true, List.mem_cons] at hi
        rcases hi with hi | hi
        · refine ⟨⟨v, task.Title, some task.Description, some task.DueDate, some task.Status⟩,
            hsub2 _ (by simp), ?_⟩
          rw [hi, hto]
        · exact hids2 i hi

/-- C6: starting from the empty table, after `N` creates that are all answered 201 and one
`deleteTask` on an id one of them answered, `listTasks` answers 200 with a slice of exactly
`N - 1` tasks; when `N ≥ 2` the body is a JSON array of `N - 1` tasks. -/
theorem listTasks_after_delete (cs : List Context) (c c2 : Context) (i : Int)
    (hok : ∀ x ∈ (run (some Table.empty) (createAll cs)).1, x.2.status = 201)
    (hid : Atoi c.Param = some i)
    (hi : i ∈ createdIds (run (some Table.empty) (createAll cs)).1) :
    ∃ s : Slice Task,
      (listTasks c2 (deleteTask c (run (some Table.empty) (createAll cs)).2).2).1
        = ⟨200, .tasks s⟩ ∧
      s.len = cs.length - 1 ∧
      (2 ≤ cs.length → ∃ ts : List Task, Obj.toJSON (.tasks s) = Json.array ts ∧
        ts.length = cs.length - 1) := by
  obtain ⟨t1, hr1, hlen1, hnd1, hscan1, _, hids1⟩ :=
    run_createAll cs Table.empty inv_empty (by simp [Table.empty]) (by simp [Table.empty]) hok
  have hlen : (t1.rows.filter (fun r => decide (r.id ≠ i))).length + 1 = cs.length := by
    rw [filter_ne_length t1.rows i hnd1 (hids1 i hi), hlen1]
    simp [Table.empty]
  have hscan : ∀ r ∈ t1.rows.filter (fun r => decide (r.id ≠ i)), ∃ task, scan r = some task :=
    fun r hr => hscan1 r (List.mem_filter.mp hr).1
  obtain ⟨s, hs, hslen, hmk⟩ := listLoop_ok _ Slice.nil hscan
  refine ⟨s, ?_, ?_, ?_⟩
  · simp only [hr1, deleteTask, hid, listTasks, Table.delete, hs]
  · rw [hslen]
    simp only [Slice.len]
    omega
  · intro h2
    have hne : t1.rows.filter (fun r => decide (r.id ≠ i)) ≠ [] := by
      intro he
      rw [he] at hlen
      simp at hlen
      omega
    obtain ⟨ts, hts⟩ := hmk (Or.inr hne)
    refine ⟨ts, by rw [hts]; rfl, ?_⟩
    rw [hts] at hslen
    simp only [Slice.len] at hslen
    omega

/-- Witness of C6: two creates, `DELETE /tasks/1`, and a list of one task. -/
theorem listTasks_after_delete_witness :
    (∀ x ∈ (run (some Table.empty) (createAll sampleCreates)).1, x.2.status = 201) ∧
    Atoi ctx1.Param = some 1 ∧
    1 ∈ createdIds (run (some Table.empty) (createAll sampleCreates)).1 ∧
    ∃ s : Slice Task,
      (listTasks ctxAbc (deleteTask ctx1 (run (some Table.empty) (createAll sampleCreates)).2).2).1
        = ⟨200, .tasks s⟩ ∧
      s.len = sampleCreates.length - 1 := by
  have hok : ∀ x ∈ (run (some Table.empty) (createAll sampleCreates)).1, x.2.status = 201 := by
    intro x hx
    simp only [sampleCreates, createAll, List.map_cons, List.map_nil, run_cons, run,
      List.mem_cons, List.mem_singleton, List.not_mem_nil, or_false] at hx
    rcases hx with h | h <;> (subst h; decide)
  have hi : 1 ∈ createdIds (run (some Table.empty) (createAll sampleCreates)).1 := by decide
  obtain ⟨s, h1, h2, _⟩ :=
    listTasks_after_delete sampleCreates ctx1 ctxAbc 1 hok (by decide) hi
  exact ⟨hok, by decide, hi, s, h1, h2⟩

end TaskApi
